import Mathlib

/-!
Verification of the vision60 keyboard teleoperation node
(`vision60_control/keyboard_command_node.py`).

The node keeps a set of pressed movement keys with a last-seen timestamp
per key, maps the held-key set to a 3-DOF velocity vector scaled by an
adjustable speed scalar, publishes the vector on a fixed-period timer,
and issues discrete mode/action requests to a remote service.

Modelling conventions:
* Python floats are modelled as exact rationals (`ℚ`); the constants
  0.05, 0.1, 0.15, 0.2, 1.0 of the source are exact decimals.
* `pressed_keys` (a Python `set`) is a `Finset Char`; `key_last_seen`
  (a Python `dict`) is a function `Char → Option ℚ`.
* The external world enters as explicit parameters: the character read
  by `get_key_nonblocking` (`Option Char`, `none` for the empty read),
  the wall-clock time `time.time()` (`ℚ`), and the result of
  `wait_for_service(timeout_sec=1.0)` (`Bool`).
* `call_ensure_mode` is modelled by the request it sends (if any) and
  the number of errors it logs; raising `KeyboardInterrupt` on Ctrl+C
  is modelled by `Except.error ()`.
-/

/-- Request sent to the `/ensure_mode` service: `request.field` and
`request.valdes` as set in `call_ensure_mode`. -/
structure EnsureModeRequest where
  field : String
  valdes : Int
deriving DecidableEq

/-- The `Twist` message published by `timer_callback`: only the fields
the node sets (`linear.x`, `linear.y`, `angular.z`). -/
structure Twist where
  linear_x : ℚ
  linear_y : ℚ
  angular_z : ℚ
deriving DecidableEq

/-- The mutable state of `KeyboardControlNode`: `pressed_keys`,
`key_last_seen`, the current velocities `vx`, `vy`, `vyaw`, and the
speed scalar `speed`. -/
structure NodeState where
  pressed_keys : Finset Char
  key_last_seen : Char → Option ℚ
  vx : ℚ
  vy : ℚ
  vyaw : ℚ
  speed : ℚ

/-- `self.default_speed = 0.2`. -/
def default_speed : ℚ := 0.2

/-- The timer period passed to `create_timer(0.05, ...)` (20 Hz). -/
def timer_period : ℚ := 0.05

/-- The state set up in `__init__`: empty key set and map, zero
velocities, speed equal to `default_speed`. -/
def initState : NodeState :=
  { pressed_keys := ∅
    key_last_seen := fun _ => none
    vx := 0
    vy := 0
    vyaw := 0
    speed := default_speed }

/-- `timer_callback`: builds a `Twist` from the current `vx`, `vy`,
`vyaw` and publishes it.  The returned message is the published one. -/
def timer_callback (s : NodeState) : Twist :=
  { linear_x := s.vx, linear_y := s.vy, angular_z := s.vyaw }

/-- `call_ensure_mode(field, valdes)`.  `avail` is the result of
`wait_for_service(timeout_sec=1.0)`.  Returns the (unchanged) node
state, the request passed to `call_async` (if any), and the number of
error log lines emitted.  When the service is unavailable the method
logs one error and returns without building a request. -/
def call_ensure_mode (s : NodeState) (avail : Bool) (field : String) (valdes : Int) :
    NodeState × Option EnsureModeRequest × Nat :=
  if avail = false then (s, none, 1)
  else (s, some { field := field, valdes := valdes }, 0)

/-- `update_velocity_state`: recomputes `vx`, `vy`, `vyaw` from scratch
out of the pressed-key set, each conditional overwriting the previous
value of its axis in source order (w, s, a, d, q, e). -/
def update_velocity_state (s : NodeState) : NodeState :=
  let vx : ℚ := 0
  let vy : ℚ := 0
  let vyaw : ℚ := 0
  let vx := if 'w' ∈ s.pressed_keys then s.speed else vx
  let vx := if 's' ∈ s.pressed_keys then -s.speed else vx
  let vy := if 'a' ∈ s.pressed_keys then s.speed else vy
  let vy := if 'd' ∈ s.pressed_keys then -s.speed else vy
  let vyaw := if 'q' ∈ s.pressed_keys then s.speed else vyaw
  let vyaw := if 'e' ∈ s.pressed_keys then -s.speed else vyaw
  { s with vx := vx, vy := vy, vyaw := vyaw }

/-- `adjust_speed(delta)`: adds `delta` to the speed and clamps the
result into `[0.0, 1.0]` via `max(0.0, min(new_speed, 1.0))`. -/
def adjust_speed (s : NodeState) (delta : ℚ) : NodeState :=
  let new_speed := s.speed + delta
  let new_speed := max 0 (min new_speed 1)
  { s with speed := new_speed }

/-- The movement-key tuple `("w", "a", "s", "d", "q", "e")` tested in
`keyboard_loop_once`. -/
def movementKeys : List Char := ['w', 'a', 's', 'd', 'q', 'e']

/-- The staleness sweep of `keyboard_loop_once` (lines 179-191): every
pressed key whose last-seen entry is missing, or whose age
`now - last_seen` exceeds 0.15 s, is removed from the pressed set and
popped from the last-seen map. -/
def sweepStale (pressed : Finset Char) (ls : Char → Option ℚ) (now : ℚ) :
    Finset Char × (Char → Option ℚ) :=
  let keep : Char → Bool := fun k =>
    match ls k with
    | some t => decide (now - t ≤ 0.15)
    | none => false
  (pressed.filter (fun k => keep k = true),
   fun k => if k ∈ pressed ∧ keep k = false then none else ls k)

/-- The tail of every (non-interrupted) `keyboard_loop_once` call: run
the staleness sweep, then `update_velocity_state`. -/
def finishState (s : NodeState) (now : ℚ) : NodeState :=
  let swept := sweepStale s.pressed_keys s.key_last_seen now
  update_velocity_state
    { s with pressed_keys := swept.1, key_last_seen := swept.2 }

/-- Outcome of one `keyboard_loop_once` call: the new node state, the
requests sent to the `/ensure_mode` service during the call, and the
number of errors logged. -/
structure LoopResult where
  state : NodeState
  requests : List EnsureModeRequest
  errors : Nat

/-- Wraps `finishState` into a successful loop outcome. -/
def finishLoop (s : NodeState) (reqs : List EnsureModeRequest) (errs : Nat) (now : ℚ) :
    Except Unit LoopResult :=
  Except.ok { state := finishState s now, requests := reqs, errors := errs }

/-- A discrete-key branch of `keyboard_loop_once`: perform the
`call_ensure_mode` call, then fall through to the sweep. -/
def serviceStep (s : NodeState) (avail : Bool) (field : String) (valdes : Int) (now : ℚ) :
    Except Unit LoopResult :=
  let r := call_ensure_mode s avail field valdes
  finishLoop r.1 r.2.1.toList r.2.2 now

/-- `keyboard_loop_once`: read one key (`none` models the empty read),
dispatch on it (Ctrl+C raises, modelled by `Except.error ()`; movement
keys are added to `pressed_keys` with a refreshed timestamp; `[`/`]`
adjust the speed; m/n/z/x/c call the service; `h` prints help), then
sweep stale keys and recompute the velocities. -/
def keyboard_loop_once (s : NodeState) (key : Option Char) (now : ℚ) (avail : Bool) :
    Except Unit LoopResult :=
  match key with
  | some k =>
    if k = '\x03' then Except.error ()
    else if k ∈ movementKeys then
      finishLoop
        { s with
          pressed_keys := insert k s.pressed_keys
          key_last_seen := fun c => if c = k then some now else s.key_last_seen c }
        [] 0 now
    else if k = '[' then finishLoop (adjust_speed s (-0.1)) [] 0 now
    else if k = ']' then finishLoop (adjust_speed s 0.1) [] 0 now
    else if k = 'm' then serviceStep s avail "control_mode" 140 now
    else if k = 'n' then serviceStep s avail "control_mode" 180 now
    else if k = 'z' then serviceStep s avail "action" 0 now
    else if k = 'x' then serviceStep s avail "action" 1 now
    else if k = 'c' then serviceStep s avail "action" 2 now
    else finishLoop s [] 0 now
  | none => finishLoop s [] 0 now

/-- The node state produced by one `keyboard_loop_once` call, with the
pre-call state as the (unreachable for non-interrupt keys) fallback on
`KeyboardInterrupt`. -/
def loopStateD (s : NodeState) (key : Option Char) (now : ℚ) (avail : Bool) : NodeState :=
  match keyboard_loop_once s key now avail with
  | Except.ok r => r.state
  | Except.error _ => s

/-- The service requests issued by one `keyboard_loop_once` call. -/
def loopRequests (s : NodeState) (key : Option Char) (now : ℚ) (avail : Bool) :
    List EnsureModeRequest :=
  match keyboard_loop_once s key now avail with
  | Except.ok r => r.requests
  | Except.error _ => []

/-- Iterates `keyboard_loop_once` over a list of observations, each an
optional read key together with the `time.time()` value of that
iteration, threading the node state as the main loop does. -/
def runLoop (s : NodeState) (avail : Bool) :
    List (Option Char × ℚ) → Except Unit NodeState
  | [] => Except.ok s
  | ob :: rest =>
    match keyboard_loop_once s ob.1 ob.2 avail with
    | Except.error e => Except.error e
    | Except.ok r => runLoop r.state avail rest

/-- `runLoop` from the `__init__` state, as an `Option`. -/
def runState (avail : Bool) (obs : List (Option Char × ℚ)) : Option NodeState :=
  match runLoop initState avail obs with
  | Except.ok s => some s
  | Except.error _ => none

/-- Folds a list of `adjust_speed` deltas over a state (a sequence of
`[` / `]` presses). -/
def applyDeltas (s : NodeState) (ds : List ℚ) : NodeState :=
  ds.foldl adjust_speed s

/-- A state with all six movement keys held (used to instantiate
universally quantified theorems). -/
def allKeysState : NodeState :=
  { pressed_keys := {'w', 's', 'a', 'd', 'q', 'e'}
    key_last_seen := fun _ => some 0
    vx := 0
    vy := 0
    vyaw := 0
    speed := 0.2 }

/-- A state holding only `w` at speed 0.2. -/
def wState : NodeState :=
  { pressed_keys := {'w'}
    key_last_seen := fun c => if c = 'w' then some 0 else none
    vx := 0
    vy := 0
    vyaw := 0
    speed := 0.2 }

/-- A second state holding only `w` at speed 0.2, with different
history fields (timestamps and stale velocity entries). -/
def wStateB : NodeState :=
  { pressed_keys := {'w'}
    key_last_seen := fun _ => some 7
    vx := 5
    vy := 5
    vyaw := 5
    speed := 0.2 }

/-! ## Helper lemmas -/

/-- `update_velocity_state` does not touch the pressed-key set. -/
lemma update_velocity_pressed (s : NodeState) :
    (update_velocity_state s).pressed_keys = s.pressed_keys := rfl

/-- `update_velocity_state` does not touch the last-seen map. -/
lemma update_velocity_last_seen (s : NodeState) :
    (update_velocity_state s).key_last_seen = s.key_last_seen := rfl

/-- `update_velocity_state` does not touch the speed scalar. -/
lemma update_velocity_speed (s : NodeState) :
    (update_velocity_state s).speed = s.speed := rfl

/-- `adjust_speed` touches only the speed scalar. -/
lemma adjust_speed_pressed (s : NodeState) (d : ℚ) :
    (adjust_speed s d).pressed_keys = s.pressed_keys := rfl

lemma adjust_speed_last_seen (s : NodeState) (d : ℚ) :
    (adjust_speed s d).key_last_seen = s.key_last_seen := rfl

/-- The clamped speed always lands in `[0, 1]`. -/
lemma adjust_speed_mem (s : NodeState) (d : ℚ) :
    0 ≤ (adjust_speed s d).speed ∧ (adjust_speed s d).speed ≤ 1 := by
  unfold adjust_speed
  constructor
  · exact le_max_left 0 _
  · exact max_le (by norm_num) (min_le_right _ 1)

/-! ## Claim theorems -/

/-- Claim C1: whenever two opposing movement keys are both held, the
later-checked key wins the shared axis: `s` overrides `w` (forward
`= -speed`), `d` overrides `a` (lateral `= -speed`), `e` overrides `q`
(yaw `= -speed`); the axis is never zero-cancelled. -/
theorem opposing_keys_precedence (s : NodeState) :
    ('w' ∈ s.pressed_keys → 's' ∈ s.pressed_keys →
      (update_velocity_state s).vx = -s.speed) ∧
    ('a' ∈ s.pressed_keys → 'd' ∈ s.pressed_keys →
      (update_velocity_state s).vy = -s.speed) ∧
    ('q' ∈ s.pressed_keys → 'e' ∈ s.pressed_keys →
      (update_velocity_state s).vyaw = -s.speed) := by
  refine ⟨fun _ hs => ?_, fun _ hd => ?_, fun _ he => ?_⟩
  · simp [update_velocity_state, hs]
  · simp [update_velocity_state, hd]
  · simp [update_velocity_state, he]

/-- Witness for C1 at a state holding all six movement keys. -/
theorem opposing_keys_precedence_witness :
    (update_velocity_state allKeysState).vx = -allKeysState.speed ∧
    (update_velocity_state allKeysState).vy = -allKeysState.speed ∧
    (update_velocity_state allKeysState).vyaw = -allKeysState.speed :=
  ⟨(opposing_keys_precedence allKeysState).1 (by decide) (by decide),
   (opposing_keys_precedence allKeysState).2.1 (by decide) (by decide),
   (opposing_keys_precedence allKeysState).2.2 (by decide) (by decide)⟩

/-- Claim C5: when the service is unavailable within the wait bound,
`call_ensure_mode` sends no request, logs exactly one error, and leaves
the whole node state (hence vx, vy, vyaw, speed and the held-key set)
unchanged; nothing is queued for retry. -/
theorem service_unavailable_skips (s : NodeState) (f : String) (v : Int) :
    (call_ensure_mode s false f v).2.1 = none ∧
    (call_ensure_mode s false f v).2.2 = 1 ∧
    (call_ensure_mode s false f v).1 = s := by
  refine ⟨rfl, rfl, rfl⟩

/-- Claim C7: from the initial speed 0.2, three `]` presses reach speed
exactly 0.5 and a fourth reaches exactly 0.6; every step adds exactly
0.1 (the clamp to `[0, 1]` never alters the sum). -/
theorem speed_increment_scenario :
    (applyDeltas initState [0.1, 0.1, 0.1]).speed = 0.5 ∧
    (applyDeltas initState [0.1, 0.1, 0.1, 0.1]).speed = 0.6 ∧
    (applyDeltas initState [0.1]).speed = initState.speed + 0.1 ∧
    (applyDeltas initState [0.1, 0.1]).speed
      = (applyDeltas initState [0.1]).speed + 0.1 ∧
    (applyDeltas initState [0.1, 0.1, 0.1]).speed
      = (applyDeltas initState [0.1, 0.1]).speed + 0.1 ∧
    (applyDeltas initState [0.1, 0.1, 0.1, 0.1]).speed
      = (applyDeltas initState [0.1, 0.1, 0.1]).speed + 0.1 := by
  refine ⟨?_, ?_, ?_, ?_, ?_, ?_⟩ <;>
    norm_num [applyDeltas, adjust_speed, initState, default_speed]

/-- Folding `adjust_speed` over any delta list keeps the speed in
`[0, 1]` as soon as it starts there. -/
lemma applyDeltas_bounds :
    ∀ (ds : List ℚ) (s : NodeState), 0 ≤ s.speed → s.speed ≤ 1 →
      0 ≤ (applyDeltas s ds).speed ∧ (applyDeltas s ds).speed ≤ 1 := by
  intro ds
  induction ds with
  | nil => intro s h0 h1; exact ⟨h0, h1⟩
  | cons d ds ih =>
    intro s _ _
    exact ih (adjust_speed s d) (adjust_speed_mem s d).1 (adjust_speed_mem s d).2

/-- Claim C3: starting from any speed in `[0, 1]`, any sequence of
`adjust_speed` calls with deltas `-0.1` (`[`) or `+0.1` (`]`) keeps the
speed in `[0, 1]` after every call (every prefix of the sequence). -/
theorem speed_clamped_in_bounds (s : NodeState) (ds : List ℚ)
    (hds : ∀ d ∈ ds, d = -0.1 ∨ d = 0.1)
    (h0 : 0 ≤ s.speed) (h1 : s.speed ≤ 1) (n : ℕ) :
    0 ≤ (applyDeltas s (ds.take n)).speed ∧
      (applyDeltas s (ds.take n)).speed ≤ 1 :=
  applyDeltas_bounds (ds.take n) s h0 h1

/-- Witness for C3: one `[` press from the initial state. -/
theorem speed_clamped_in_bounds_witness :
    0 ≤ (applyDeltas initState ([-0.1, 0.1].take 1)).speed ∧
      (applyDeltas initState ([-0.1, 0.1].take 1)).speed ≤ 1 :=
  speed_clamped_in_bounds initState [-0.1, 0.1]
    (by intro d hd; simpa using hd)
    (by norm_num [initState, default_speed])
    (by norm_num [initState, default_speed]) 1

/-- Claim C4: with held-key set exactly `{w}` and speed 0.2, the timer
callback (firing at the fixed `timer_period = 0.05 s`, i.e. 20 Hz)
publishes linear x = 0.2, linear y = 0, angular z = 0; the message is a
function of the current state alone, so it is republished unchanged on
every tick. -/
theorem held_w_publishes_forward (s : NodeState)
    (hp : s.pressed_keys = {'w'}) (hs : s.speed = 0.2) :
    timer_callback (update_velocity_state s)
      = { linear_x := 0.2, linear_y := 0, angular_z := 0 } ∧
    timer_period = 1 / 20 := by
  have hw : 'w' ∈ s.pressed_keys := by rw [hp]; exact Finset.mem_singleton_self 'w'
  have hns : 's' ∉ s.pressed_keys := by rw [hp]; decide
  have hna : 'a' ∉ s.pressed_keys := by rw [hp]; decide
  have hnd : 'd' ∉ s.pressed_keys := by rw [hp]; decide
  have hnq : 'q' ∉ s.pressed_keys := by rw [hp]; decide
  have hne : 'e' ∉ s.pressed_keys := by rw [hp]; decide
  refine ⟨?_, by norm_num [timer_period]⟩
  simp [timer_callback, update_velocity_state, hw, hns, hna, hnd, hnq, hne, hs]

/-- Witness for C4 at the concrete state `wState`. -/
theorem held_w_publishes_forward_witness :
    timer_callback (update_velocity_state wState)
      = { linear_x := 0.2, linear_y := 0, angular_z := 0 } ∧
    timer_period = 1 / 20 :=
  held_w_publishes_forward wState rfl rfl

/-- Claim C6 (amended): the velocity mapper output is a function of the
current held-key set *and the current speed scalar*: any two states
agreeing on both produce the same velocity vector, regardless of the
history that reached them. -/
theorem velocity_from_keys_and_speed (s1 s2 : NodeState)
    (hp : s1.pressed_keys = s2.pressed_keys) (hs : s1.speed = s2.speed) :
    (update_velocity_state s1).vx = (update_velocity_state s2).vx ∧
    (update_velocity_state s1).vy = (update_velocity_state s2).vy ∧
    (update_velocity_state s1).vyaw = (update_velocity_state s2).vyaw := by
  refine ⟨?_, ?_, ?_⟩ <;> simp [update_velocity_state, hp, hs]

/-- Witness for the amended C6: two states with the same held set and
speed but different timestamps and stale velocity fields. -/
theorem velocity_from_keys_and_speed_witness :
    (update_velocity_state wState).vx = (update_velocity_state wStateB).vx ∧
    (update_velocity_state wState).vy = (update_velocity_state wStateB).vy ∧
    (update_velocity_state wState).vyaw = (update_velocity_state wStateB).vyaw :=
  velocity_from_keys_and_speed wState wStateB rfl rfl

/-- Counterexample to C6 as stated: the observation sequences
`]` then `w` versus `w` alone (all at time 0, service available) reach
states with the *same* held-key set `{w}`, yet the velocity mapper
yields forward 0.3 on the first and 0.2 on the second, because the `]`
press changed the speed scalar. -/
theorem velocity_keys_only_counterexample :
    (runState true [(some ']', 0), (some 'w', 0)]).map NodeState.pressed_keys
      = (runState true [(some 'w', 0)]).map NodeState.pressed_keys ∧
    (runState true [(some ']', 0), (some 'w', 0)]).map
        (fun s => (update_velocity_state s).vx) = some 0.3 ∧
    (runState true [(some 'w', 0)]).map
        (fun s => (update_velocity_state s).vx) = some 0.2 ∧
    (0.3 : ℚ) ≠ 0.2 := by
  refine ⟨rfl, by with_unfolding_all rfl, by with_unfolding_all rfl, by norm_num⟩

/-- A pressed key with a missing or stale (`now - t > 0.15`) last-seen
entry is removed from both components by the sweep. -/
lemma sweepStale_removes (p : Finset Char) (ls : Char → Option ℚ) (now : ℚ) (k : Char)
    (hk : k ∈ p)
    (hst : ls k = none ∨ ∃ t, ls k = some t ∧ now - t > 0.15) :
    k ∉ (sweepStale p ls now).1 ∧ (sweepStale p ls now).2 k = none := by
  have hkeep : (match ls k with
      | some t => decide (now - t ≤ 0.15)
      | none => false) = false := by
    rcases hst with h | ⟨t, ht, hgt⟩
    · rw [h]
    · rw [ht]
      simp only [decide_eq_false_iff_not]
      exact not_le.mpr hgt
  constructor
  · intro hmem
    simp only [sweepStale, Finset.mem_filter] at hmem
    rw [hkeep] at hmem
    exact Bool.false_ne_true hmem.2
  · simp only [sweepStale]
    rw [if_pos ⟨hk, hkeep⟩]

/-- `finishState` removes a pressed key whose entry is missing or
stale. -/
lemma finishState_stale (s : NodeState) (now : ℚ) (k : Char)
    (hk : k ∈ s.pressed_keys)
    (hst : s.key_last_seen k = none ∨
      ∃ t, s.key_last_seen k = some t ∧ now - t > 0.15) :
    k ∉ (finishState s now).pressed_keys ∧
      (finishState s now).key_last_seen k = none :=
  sweepStale_removes s.pressed_keys s.key_last_seen now k hk hst

/-- `call_ensure_mode` never modifies the node state. -/
lemma call_ensure_mode_state (s : NodeState) (avail : Bool) (f : String) (v : Int) :
    (call_ensure_mode s avail f v).1 = s := by
  cases avail <;> rfl

/-- Claim C2: on any `keyboard_loop_once` call whose read key is
neither the swept key nor Ctrl+C, a pressed key whose last-seen entry
is missing or older than the 0.15 s staleness threshold at the call's
current time is removed from the held set and from the last-seen map
by that same call's sweep. -/
theorem stale_key_removed (s : NodeState) (key : Option Char) (now : ℚ)
    (avail : Bool) (k : Char)
    (hk : k ∈ s.pressed_keys)
    (hst : s.key_last_seen k = none ∨
      ∃ t, s.key_last_seen k = some t ∧ now - t > 0.15)
    (hread : key ≠ some k) (hint : key ≠ some '\x03') :
    k ∉ (loopStateD s key now avail).pressed_keys ∧
      (loopStateD s key now avail).key_last_seen k = none := by
  rcases key with _ | c
  · exact finishState_stale s now k hk hst
  · have hck : ¬ (k = c) := fun h => hread (by rw [h])
    have hc3 : ¬ (c = '\x03') := fun h => hint (by rw [h])
    simp only [loopStateD, keyboard_loop_once]
    rw [if_neg hc3]
    by_cases hmv : c ∈ movementKeys
    · rw [if_pos hmv]
      have hls : (if k = c then some now else s.key_last_seen k)
          = s.key_last_seen k := if_neg hck
      rw [← hls] at hst
      exact finishState_stale _ now k (Finset.mem_insert_of_mem hk) hst
    · rw [if_neg hmv]
      split_ifs with h1 h2 h3 h4 h5 h6 h7
      · exact finishState_stale (adjust_speed s (-0.1)) now k hk hst
      · exact finishState_stale (adjust_speed s 0.1) now k hk hst
      · refine finishState_stale _ now k ?_ ?_ <;>
          rw [call_ensure_mode_state] <;> assumption
      · refine finishState_stale _ now k ?_ ?_ <;>
          rw [call_ensure_mode_state] <;> assumption
      · refine finishState_stale _ now k ?_ ?_ <;>
          rw [call_ensure_mode_state] <;> assumption
      · refine finishState_stale _ now k ?_ ?_ <;>
          rw [call_ensure_mode_state] <;> assumption
      · refine finishState_stale _ now k ?_ ?_ <;>
          rw [call_ensure_mode_state] <;> assumption
      · exact finishState_stale s now k hk hst

/-- Witness for C2: key `w` last seen at time 0, swept at time 1 on an
empty read. -/
theorem stale_key_removed_witness :
    'w' ∉ (loopStateD wState none 1 true).pressed_keys ∧
      (loopStateD wState none 1 true).key_last_seen 'w' = none :=
  stale_key_removed wState none 1 true 'w' (by decide)
    (Or.inr ⟨0, rfl, by norm_num⟩)
    (fun h => Option.noConfusion h) (fun h => Option.noConfusion h)

/-- Claim C8: with the service available, `m` sends exactly
`("control_mode", 140)`, `n` sends `("control_mode", 180)`, `z`/`x`/`c`
send `("action", 0/1/2)`, and no other read key issues any request. -/
theorem discrete_key_requests (s : NodeState) (now : ℚ) :
    loopRequests s (some 'm') now true = [{ field := "control_mode", valdes := 140 }] ∧
    loopRequests s (some 'n') now true = [{ field := "control_mode", valdes := 180 }] ∧
    loopRequests s (some 'z') now true = [{ field := "action", valdes := 0 }] ∧
    loopRequests s (some 'x') now true = [{ field := "action", valdes := 1 }] ∧
    loopRequests s (some 'c') now true = [{ field := "action", valdes := 2 }] ∧
    ∀ (key : Option Char) (avail : Bool),
      key ∉ [some 'm', some 'n', some 'z', some 'x', some 'c'] →
      loopRequests s key now avail = [] := by
  refine ⟨rfl, rfl, rfl, rfl, rfl, ?_⟩
  intro key avail hkey
  rcases key with _ | c
  · rfl
  · simp only [List.mem_cons, List.not_mem_nil, or_false, not_or] at hkey
    obtain ⟨hm, hn, hz, hx, hc⟩ := hkey
    have hm' : ¬ (c = 'm') := fun h => hm (by rw [h])
    have hn' : ¬ (c = 'n') := fun h => hn (by rw [h])
    have hz' : ¬ (c = 'z') := fun h => hz (by rw [h])
    have hx' : ¬ (c = 'x') := fun h => hx (by rw [h])
    have hc' : ¬ (c = 'c') := fun h => hc (by rw [h])
    simp only [loopRequests, keyboard_loop_once]
    split_ifs <;> rfl

/-- Witness for C8: `m` from the initial state sends the mode request;
`w` sends nothing. -/
theorem discrete_key_requests_witness :
    loopRequests initState (some 'm') 0 true
      = [{ field := "control_mode", valdes := 140 }] ∧
    loopRequests initState (some 'w') 0 true = [] :=
  ⟨(discrete_key_requests initState 0).1,
   (discrete_key_requests initState 0).2.2.2.2.2 (some 'w') true (by decide)⟩

/-- The sweep only ever removes keys. -/
lemma sweepStale_subset (p : Finset Char) (ls : Char → Option ℚ) (now : ℚ) :
    (sweepStale p ls now).1 ⊆ p :=
  Finset.filter_subset _ _

/-- A key surviving the sweep keeps its last-seen entry, which is in
particular present. -/
lemma sweepStale_ls_of_mem (p : Finset Char) (ls : Char → Option ℚ) (now : ℚ)
    (k : Char) (hk : k ∈ (sweepStale p ls now).1) :
    (sweepStale p ls now).2 k = ls k ∧ ls k ≠ none := by
  simp only [sweepStale, Finset.mem_filter] at hk
  obtain ⟨hp, hkeep⟩ := hk
  have hsome : ls k ≠ none := by
    intro h
    rw [h] at hkeep
    exact Bool.false_ne_true hkeep
  refine ⟨?_, hsome⟩
  simp only [sweepStale]
  rw [if_neg]
  rintro ⟨-, hf⟩
  rw [hkeep] at hf
  exact Bool.noConfusion hf

/-- The forward component after `update_velocity_state`: `s` overrides
`w`. -/
lemma update_vx (s : NodeState) :
    (update_velocity_state s).vx =
      if 's' ∈ s.pressed_keys then -s.speed
      else if 'w' ∈ s.pressed_keys then s.speed else 0 := rfl

/-- The lateral component after `update_velocity_state`: `d` overrides
`a`. -/
lemma update_vy (s : NodeState) :
    (update_velocity_state s).vy =
      if 'd' ∈ s.pressed_keys then -s.speed
      else if 'a' ∈ s.pressed_keys then s.speed else 0 := rfl

/-- The yaw component after `update_velocity_state`: `e` overrides
`q`. -/
lemma update_vyaw (s : NodeState) :
    (update_velocity_state s).vyaw =
      if 'e' ∈ s.pressed_keys then -s.speed
      else if 'q' ∈ s.pressed_keys then s.speed else 0 := rfl

/-- Every velocity component written by `update_velocity_state` is `0`,
`speed` or `-speed`, hence bounded by the speed in absolute value. -/
lemma update_velocity_bounds (s : NodeState) (h : 0 ≤ s.speed) :
    |(update_velocity_state s).vx| ≤ s.speed ∧
    |(update_velocity_state s).vy| ≤ s.speed ∧
    |(update_velocity_state s).vyaw| ≤ s.speed := by
  rw [update_vx, update_vy, update_vyaw]
  refine ⟨?_, ?_, ?_⟩ <;> split_ifs <;> simp [abs_of_nonneg h, h]

/-- The invariant maintained by the keyboard loop: only movement keys
are held, each with a present last-seen entry; the speed is in
`[0, 1]`; each velocity component is at most the speed in absolute
value. -/
def GoodState (s : NodeState) : Prop :=
  (∀ k ∈ s.pressed_keys, k ∈ movementKeys) ∧
  (∀ k ∈ s.pressed_keys, s.key_last_seen k ≠ none) ∧
  0 ≤ s.speed ∧ s.speed ≤ 1 ∧
  |s.vx| ≤ s.speed ∧ |s.vy| ≤ s.speed ∧ |s.vyaw| ≤ s.speed

/-- `update_velocity_state` establishes the invariant over any state
whose held set, last-seen map and speed already satisfy it. -/
lemma update_velocity_good (s2 : NodeState)
    (hmv : ∀ k ∈ s2.pressed_keys, k ∈ movementKeys)
    (hls : ∀ k ∈ s2.pressed_keys, s2.key_last_seen k ≠ none)
    (h0 : 0 ≤ s2.speed) (h1 : s2.speed ≤ 1) :
    GoodState (update_velocity_state s2) :=
  ⟨hmv, hls, h0, h1,
   (update_velocity_bounds s2 h0).1,
   (update_velocity_bounds s2 h0).2.1,
   (update_velocity_bounds s2 h0).2.2⟩

/-- `finishState` establishes the invariant as soon as the pre-sweep
state holds only movement keys and a speed in `[0, 1]`. -/
lemma finishState_good (s : NodeState) (now : ℚ)
    (hmv : ∀ k ∈ s.pressed_keys, k ∈ movementKeys)
    (h0 : 0 ≤ s.speed) (h1 : s.speed ≤ 1) :
    GoodState (finishState s now) := by
  show GoodState (update_velocity_state
    { s with
      pressed_keys := (sweepStale s.pressed_keys s.key_last_seen now).1
      key_last_seen := (sweepStale s.pressed_keys s.key_last_seen now).2 })
  refine update_velocity_good _ ?_ ?_ h0 h1
  · intro k hk
    exact hmv k (sweepStale_subset s.pressed_keys s.key_last_seen now hk)
  · intro k hk
    have h := sweepStale_ls_of_mem s.pressed_keys s.key_last_seen now k hk
    show (sweepStale s.pressed_keys s.key_last_seen now).2 k ≠ none
    rw [h.1]
    exact h.2

/-- A successful `finishLoop` lands in the invariant as soon as its
input state holds only movement keys and a speed in `[0, 1]`. -/
lemma finishLoop_good (s1 : NodeState) (reqs : List EnsureModeRequest)
    (errs : Nat) (now : ℚ) (r : LoopResult)
    (hr : finishLoop s1 reqs errs now = Except.ok r)
    (hmv : ∀ k ∈ s1.pressed_keys, k ∈ movementKeys)
    (h0 : 0 ≤ s1.speed) (h1 : s1.speed ≤ 1) :
    GoodState r.state := by
  simp only [finishLoop, Except.ok.injEq] at hr
  rw [← hr]
  exact finishState_good s1 now hmv h0 h1

/-- One `keyboard_loop_once` step from a state with only movement keys
held and speed in `[0, 1]` yields an invariant state. -/
lemma loop_good (s : NodeState) (key : Option Char) (now : ℚ) (avail : Bool)
    (hmv : ∀ k ∈ s.pressed_keys, k ∈ movementKeys)
    (h0 : 0 ≤ s.speed) (h1 : s.speed ≤ 1)
    (r : LoopResult) (hr : keyboard_loop_once s key now avail = Except.ok r) :
    GoodState r.state := by
  rcases key with _ | c
  · exact finishLoop_good s [] 0 now r hr hmv h0 h1
  · simp only [keyboard_loop_once] at hr
    by_cases hc3 : c = '\x03'
    · rw [if_pos hc3] at hr
      exact Except.noConfusion hr
    rw [if_neg hc3] at hr
    by_cases hcmv : c ∈ movementKeys
    · rw [if_pos hcmv] at hr
      refine finishLoop_good _ [] 0 now r hr ?_ h0 h1
      intro k hk
      rcases Finset.mem_insert.mp hk with h | h
      · rw [h]; exact hcmv
      · exact hmv k h
    rw [if_neg hcmv] at hr
    by_cases hcl : c = '['
    · rw [if_pos hcl] at hr
      exact finishLoop_good _ [] 0 now r hr hmv
        (adjust_speed_mem s (-0.1)).1 (adjust_speed_mem s (-0.1)).2
    rw [if_neg hcl] at hr
    by_cases hcr : c = ']'
    · rw [if_pos hcr] at hr
      exact finishLoop_good _ [] 0 now r hr hmv
        (adjust_speed_mem s 0.1).1 (adjust_speed_mem s 0.1).2
    rw [if_neg hcr] at hr
    by_cases hcm : c = 'm'
    · rw [if_pos hcm] at hr
      simp only [serviceStep] at hr
      refine finishLoop_good _ _ _ now r hr ?_ ?_ ?_ <;>
        rw [call_ensure_mode_state] <;> assumption
    rw [if_neg hcm] at hr
    by_cases hcn : c = 'n'
    · rw [if_pos hcn] at hr
      simp only [serviceStep] at hr
      refine finishLoop_good _ _ _ now r hr ?_ ?_ ?_ <;>
        rw [call_ensure_mode_state] <;> assumption
    rw [if_neg hcn] at hr
    by_cases hcz : c = 'z'
    · rw [if_pos hcz] at hr
      simp only [serviceStep] at hr
      refine finishLoop_good _ _ _ now r hr ?_ ?_ ?_ <;>
        rw [call_ensure_mode_state] <;> assumption
    rw [if_neg hcz] at hr
    by_cases hcx : c = 'x'
    · rw [if_pos hcx] at hr
      simp only [serviceStep] at hr
      refine finishLoop_good _ _ _ now r hr ?_ ?_ ?_ <;>
        rw [call_ensure_mode_state] <;> assumption
    rw [if_neg hcx] at hr
    by_cases hcc : c = 'c'
    · rw [if_pos hcc] at hr
      simp only [serviceStep] at hr
      refine finishLoop_good _ _ _ now r hr ?_ ?_ ?_ <;>
        rw [call_ensure_mode_state] <;> assumption
    rw [if_neg hcc] at hr
    exact finishLoop_good s [] 0 now r hr hmv h0 h1

/-- The `__init__` state satisfies the loop invariant. -/
lemma initState_good : GoodState initState := by
  refine ⟨?_, ?_, ?_, ?_, ?_, ?_, ?_⟩ <;>
    norm_num [initState, default_speed]

/-- Any run of the keyboard loop from an invariant state stays in the
invariant. -/
lemma runLoop_good (avail : Bool) :
    ∀ (obs : List (Option Char × ℚ)) (s0 : NodeState), GoodState s0 →
      ∀ s, runLoop s0 avail obs = Except.ok s → GoodState s := by
  intro obs
  induction obs with
  | nil =>
    intro s0 hg s hr
    simp only [runLoop, Except.ok.injEq] at hr
    rw [← hr]
    exact hg
  | cons ob rest ih =>
    intro s0 hg s hr
    simp only [runLoop] at hr
    cases hko : keyboard_loop_once s0 ob.1 ob.2 avail with
    | error e =>
      rw [hko] at hr
      exact Except.noConfusion hr
    | ok r =>
      rw [hko] at hr
      exact ih r.state
        (loop_good s0 ob.1 ob.2 avail hg.1 hg.2.2.1 hg.2.2.2.1 r hko) s hr

/-- Claim C9: after any run of `keyboard_loop_once` steps from the
initial state, the held-key set contains only the six movement keys
and every held key has a last-seen entry; no other key ever enters the
held set. -/
theorem held_set_movement_only (avail : Bool) (obs : List (Option Char × ℚ))
    (s : NodeState) (h : runLoop initState avail obs = Except.ok s) :
    (∀ k ∈ s.pressed_keys, k ∈ movementKeys) ∧
    (∀ k ∈ s.pressed_keys, s.key_last_seen k ≠ none) :=
  ⟨(runLoop_good avail obs initState initState_good s h).1,
   (runLoop_good avail obs initState initState_good s h).2.1⟩

/-- Witness for C9 after reading key `w` at time 0. -/
theorem held_set_movement_only_witness :
    (∀ k ∈ (loopStateD initState (some 'w') 0 true).pressed_keys,
      k ∈ movementKeys) ∧
    (∀ k ∈ (loopStateD initState (some 'w') 0 true).pressed_keys,
      (loopStateD initState (some 'w') 0 true).key_last_seen k ≠ none) :=
  held_set_movement_only true [(some 'w', 0)]
    (loopStateD initState (some 'w') 0 true) rfl

/-- Claim C10: in every state reachable from the initial state by
`keyboard_loop_once` steps, the speed lies in `[0, 1]`, every velocity
component is bounded by the speed in absolute value, and hence every
published command is bounded componentwise by 1. -/
theorem velocity_bounded_by_speed (avail : Bool) (obs : List (Option Char × ℚ))
    (s : NodeState) (h : runLoop initState avail obs = Except.ok s) :
    0 ≤ s.speed ∧ s.speed ≤ 1 ∧
    |s.vx| ≤ s.speed ∧ |s.vy| ≤ s.speed ∧ |s.vyaw| ≤ s.speed ∧
    |(timer_callback s).linear_x| ≤ 1 ∧
    |(timer_callback s).linear_y| ≤ 1 ∧
    |(timer_callback s).angular_z| ≤ 1 := by
  obtain ⟨-, -, h0, h1, hvx, hvy, hvz⟩ :=
    runLoop_good avail obs initState initState_good s h
  exact ⟨h0, h1, hvx, hvy, hvz, hvx.trans h1, hvy.trans h1, hvz.trans h1⟩

/-- Witness for C10 on the empty run. -/
theorem velocity_bounded_by_speed_witness :
    0 ≤ initState.speed ∧ initState.speed ≤ 1 ∧
    |initState.vx| ≤ initState.speed ∧ |initState.vy| ≤ initState.speed ∧
    |initState.vyaw| ≤ initState.speed ∧
    |(timer_callback initState).linear_x| ≤ 1 ∧
    |(timer_callback initState).linear_y| ≤ 1 ∧
    |(timer_callback initState).angular_z| ≤ 1 :=
  velocity_bounded_by_speed true [] initState rfl
